import Mathlib

/-!
Shallow embedding of `src/millerRabin.js` (Miller-Rabin primality test).

JavaScript BigInt values are modelled as `Int` at the public entry point
(`millerRabin`, whose argument may be negative) and as `Nat` inside the
algorithm, where every reachable value is non-negative.  The platform
entropy source `crypto.getRandomValues` is modelled as a finite list of
bytes threaded through the functions that consume it; running out of
bytes models the EntropyUnavailable failure, and a fuel parameter bounds
the rejection-sampling redraw loop, with `none` standing for a call that
never returns.
-/

namespace MillerRabinJS

/-- Bytes produced by the platform entropy source, in draw order. -/
abbrev ByteStream := List Nat

/-- Modelled from the spec: `modPow` is an external dependency (imported from
a separate repository, see the header of src/millerRabin.js), specified as
arbitrary-precision modular exponentiation `base^exponent mod modulus`. -/
def modPow (base exp m : Nat) : Nat := base ^ exp % m

/-- The squaring loop of `checkWitness` (src/millerRabin.js lines 87-90:
`for (let j = 0n; j < s - 1n; j++)`), phrased by remaining iterations. -/
def squareLoop (x n : Nat) : Nat → Bool
  | 0 => false
  | j + 1 =>
    if x * x % n = n - 1 then true else squareLoop (x * x % n) n j

/-- `checkWitness(a, d, n, s)`, src/millerRabin.js lines 82-93. -/
def checkWitness (a d n s : Nat) : Bool :=
  let x := modPow a d n
  if x = 1 ∨ x = n - 1 then true
  else squareLoop x n (s - 1)

/-- `getDeterministicWitnesses(n)`, src/millerRabin.js lines 109-120.
`null` is modelled as `none`. -/
def getDeterministicWitnesses (n : Nat) : Option (List Nat) :=
  if n < 2047 then some [2]
  else if n < 1373653 then some [2, 3]
  else if n < 9080191 then some [31, 73]
  else if n < 25326001 then some [2, 3, 5]
  else if n < 3215031751 then some [2, 3, 5, 7]
  else if n < 4759123141 then some [2, 7, 61]
  else if n < 1122004669633 then some [2, 13, 23, 1662803]
  else if n < 3474749660383 then some [2, 3, 5, 7, 11, 13]
  else if n < 341550071728321 then some [2, 3, 5, 7, 11, 13, 17]
  else none

/-- Halving recursion computing the binary digit count, made structural by
a fuel argument (any fuel `≥ x` gives the digit count of `x`). -/
def bitLenAux : Nat → Nat → Nat
  | 0, _ => 1
  | fuel + 1, x => if x < 2 then 1 else bitLenAux fuel (x / 2) + 1

/-- The bit length computed by `range.toString(2).length`
(src/millerRabin.js line 161): the length of the binary string of `x`.
`bitLen_eq_log2` below identifies it with `Nat.log2 x + 1`. -/
def bitLen (x : Nat) : Nat := bitLenAux x x

/-- Big-endian byte packing, src/millerRabin.js lines 170-173:
`result = (result << 8n) | BigInt(byte)` over the drawn bytes. -/
def packBytes (bytes : List Nat) : Nat :=
  bytes.foldl (fun r b => (r <<< 8) ||| b) 0

/-- The rejection-sampling do-while loop of `randomBigIntInRange`
(src/millerRabin.js lines 166-175).  Each pass draws `bytesNeeded` bytes
from the stream (`none` when the stream is exhausted), packs and masks
them, and accepts the value when it is `< range`.  `fuel` bounds the
number of passes; `none` also models a run whose every draw is rejected. -/
def sampleLoop (bytesNeeded mask range : Nat) : Nat → ByteStream → Option (Nat × ByteStream)
  | 0, _ => none
  | fuel + 1, s =>
    if bytesNeeded ≤ s.length then
      if packBytes (s.take bytesNeeded) &&& mask < range then
        some (packBytes (s.take bytesNeeded) &&& mask, s.drop bytesNeeded)
      else sampleLoop bytesNeeded mask range fuel (s.drop bytesNeeded)
    else none

/-- `randomBigIntInRange(min, max)`, src/millerRabin.js lines 159-178. -/
def randomBigIntInRange (min max : Nat) (fuel : Nat) (s : ByteStream) :
    Option (Nat × ByteStream) :=
  let range := max - min + 1
  let bitsNeeded := bitLen range
  let bytesNeeded := (bitsNeeded + 7) / 8
  let mask := 2 ^ bitsNeeded - 1
  (sampleLoop bytesNeeded mask range fuel s).map (fun p => (min + p.1, p.2))

/-- The counting loop of `generateRandomWitnesses`
(src/millerRabin.js lines 133-137), by remaining iterations. -/
def genWitnesses (n : Nat) (count fuel : Nat) (s : ByteStream) :
    Option (List Nat × ByteStream) :=
  match count with
  | 0 => some ([], s)
  | c + 1 =>
    (randomBigIntInRange 2 (n - 2) fuel s).bind fun p =>
      (genWitnesses n c fuel p.2).bind fun q => some (p.1 :: q.1, q.2)

/-- `generateRandomWitnesses(n, k)`, src/millerRabin.js lines 132-138.
`k` is a JavaScript number: the loop `for (let i = 0; i < k; i++)` runs
`k.toNat` times (zero times whenever `k ≤ 0`). -/
def generateRandomWitnesses (n : Nat) (k : Int) (fuel : Nat) (s : ByteStream) :
    Option (List Nat × ByteStream) :=
  genWitnesses n k.toNat fuel s

/-- Line 53 of src/millerRabin.js:
`getDeterministicWitnesses(n) || generateRandomWitnesses(n, k)`. -/
def selectWitnesses (n : Nat) (k : Int) (fuel : Nat) (s : ByteStream) :
    Option (List Nat × ByteStream) :=
  match getDeterministicWitnesses n with
  | some ws => some (ws, s)
  | none => generateRandomWitnesses n k fuel s

/-- Modelled from the spec: the published deterministic table of spec
section 4.3, as ascending `(threshold, witness-set)` pairs. -/
def specTable : List (Nat × List Nat) :=
  [(2047, [2]),
   (1373653, [2, 3]),
   (9080191, [31, 73]),
   (25326001, [2, 3, 5]),
   (3215031751, [2, 3, 5, 7]),
   (4759123141, [2, 7, 61]),
   (1122004669633, [2, 13, 23, 1662803]),
   (3474749660383, [2, 3, 5, 7, 11, 13]),
   (341550071728321, [2, 3, 5, 7, 11, 13, 17])]

/-- Modelled from the spec: "return the first witness-set whose threshold
exceeds `n`" (spec section 4.3), `none` when no threshold exceeds `n`. -/
def specLookup (n : Nat) : Option (List Nat) :=
  (specTable.find? (fun p => decide (n < p.1))).map (fun p => p.2)

/-- The halving loop of src/millerRabin.js lines 45-50:
`while ((d & 1n) === 0n) { d >>= 1n; s += 1n; }`.  A start value `d = 0`
would loop forever in JavaScript, modelled here as `none`; every call
site has `d = n - 1 ≥ 4`. -/
def factorOut (d s : Nat) : Option (Nat × Nat) :=
  if h : d = 0 then none
  else if d % 2 = 0 then factorOut (d / 2) (s + 1)
  else some (s, d)
termination_by d
decreasing_by exact Nat.div_lt_self (Nat.pos_of_ne_zero h) (by norm_num)

/-- `millerRabin(n, k = 20)`, src/millerRabin.js lines 38-63.  `some b` is
a normal return of `b`; `none` models a call that fails or never returns
(entropy exhaustion / unbounded rejection).  The `List.all` over the
witnesses is the short-circuiting `for` loop of lines 56-60. -/
def millerRabin (n k : Int) (fuel : Nat) (entropy : ByteStream) : Option Bool :=
  if n < 2 then some false
  else if n = 2 ∨ n = 3 then some true
  else if n % 2 = 0 then some false
  else
    (factorOut (n.toNat - 1) 0).bind fun sd =>
      (selectWitnesses n.toNat k fuel entropy).map fun wss =>
        wss.1.all (fun a => checkWitness a sd.2 n.toNat sd.1)

/-! ### Helper lemmas -/

lemma bitLenAux_eq : ∀ (fuel x : Nat), x ≤ fuel → bitLenAux fuel x = Nat.log2 x + 1 := by
  intro fuel
  induction fuel with
  | zero =>
    intro x hx
    have hx0 : x = 0 := by omega
    subst hx0
    rw [bitLenAux, Nat.log2, if_neg (by omega)]
  | succ fuel ih =>
    intro x hx
    rw [bitLenAux]
    by_cases h2 : x < 2
    · rw [if_pos h2]
      conv_rhs => rw [Nat.log2]
      rw [if_neg (by omega)]
    · rw [if_neg h2, ih (x / 2) (by omega)]
      conv_rhs => rw [Nat.log2]
      rw [if_pos (by omega)]

lemma bitLen_eq_log2 (x : Nat) : bitLen x = Nat.log2 x + 1 :=
  bitLenAux_eq x x (le_refl x)

lemma sq_mod_pow (x n e : Nat) : (x * x % n) ^ e % n = x ^ (2 * e) % n := by
  conv_lhs => rw [← Nat.pow_mod]
  rw [← pow_two, ← pow_mul]

lemma squareLoop_iff (n : Nat) : ∀ (m x : Nat),
    squareLoop x n m = true ↔ ∃ j, j < m ∧ x ^ 2 ^ (j + 1) % n = n - 1 := by
  intro m
  induction m with
  | zero => intro x; simp [squareLoop]
  | succ m ih =>
    intro x
    by_cases h : x * x % n = n - 1
    · simp only [squareLoop, if_pos h, true_iff]
      exact ⟨0, Nat.succ_pos m, by rw [pow_one, pow_two]; exact h⟩
    · rw [squareLoop, if_neg h, ih]
      constructor
      · rintro ⟨j, hj, hx⟩
        refine ⟨j + 1, by omega, ?_⟩
        rw [sq_mod_pow, ← pow_succ'] at hx
        exact hx
      · rintro ⟨j, hj, hx⟩
        match j with
        | 0 =>
          exfalso
          rw [pow_one, pow_two] at hx
          exact h hx
        | j + 1 =>
          refine ⟨j, by omega, ?_⟩
          rw [sq_mod_pow, ← pow_succ']
          exact hx

lemma factorOut_correct : ∀ (d0 s0 : Nat), 0 < d0 →
    ∃ s d, factorOut d0 s0 = some (s, d) ∧
      2 ^ (s - s0) * d = d0 ∧ d % 2 = 1 ∧ s0 ≤ s := by
  intro d0
  induction d0 using Nat.strong_induction_on with
  | _ d0 ih =>
    intro s0 hpos
    by_cases heven : d0 % 2 = 0
    · obtain ⟨s, d, heq, hval, hodd, hle⟩ :=
        ih (d0 / 2) (Nat.div_lt_self hpos (by norm_num)) (s0 + 1) (by omega)
      refine ⟨s, d, ?_, ?_, hodd, by omega⟩
      · rw [factorOut, dif_neg (by omega), if_pos heven]
        exact heq
      · have hs : s - s0 = (s - (s0 + 1)) + 1 := by omega
        rw [hs, pow_succ]
        calc 2 ^ (s - (s0 + 1)) * 2 * d = 2 ^ (s - (s0 + 1)) * d * 2 := by ring
          _ = d0 / 2 * 2 := by rw [hval]
          _ = d0 := Nat.div_mul_cancel (Nat.dvd_of_mod_eq_zero heven)
    · refine ⟨s0, d0, ?_, by simp, by omega, le_refl s0⟩
      rw [factorOut, dif_neg (by omega), if_neg heven]

lemma sampleLoop_lt (bytesNeeded mask range : Nat) : ∀ (fuel : Nat) (s : ByteStream)
    (r : Nat) (s' : ByteStream),
    sampleLoop bytesNeeded mask range fuel s = some (r, s') → r < range := by
  intro fuel
  induction fuel with
  | zero => intro s r s' h; simp [sampleLoop] at h
  | succ fuel ih =>
    intro s r s' h
    rw [sampleLoop] at h
    split_ifs at h with h1 h2
    · simp only [Option.some.injEq, Prod.mk.injEq] at h
      omega
    · exact ih _ _ _ h

lemma randomBigIntInRange_bounds (min max fuel : Nat) (s : ByteStream) (r : Nat)
    (s' : ByteStream) (hmm : min ≤ max)
    (h : randomBigIntInRange min max fuel s = some (r, s')) : min ≤ r ∧ r ≤ max := by
  unfold randomBigIntInRange at h
  obtain ⟨⟨v, t⟩, hv, heq⟩ := Option.map_eq_some'.mp h
  have hlt := sampleLoop_lt _ _ _ _ _ _ _ hv
  simp only [Prod.mk.injEq] at heq
  omega

lemma genWitnesses_bounds (n : Nat) (h4 : 4 ≤ n) : ∀ (count fuel : Nat) (s : ByteStream)
    (ws : List Nat) (s' : ByteStream), genWitnesses n count fuel s = some (ws, s') →
    ∀ a ∈ ws, 2 ≤ a ∧ a ≤ n - 2 := by
  intro count
  induction count with
  | zero =>
    intro fuel s ws s' h a ha
    simp only [genWitnesses, Option.some.injEq, Prod.mk.injEq] at h
    rw [← h.1] at ha
    simp at ha
  | succ c ih =>
    intro fuel s ws s' h a ha
    rw [genWitnesses] at h
    obtain ⟨⟨w, s1⟩, hr, h⟩ := Option.bind_eq_some.mp h
    obtain ⟨⟨ws2, s2⟩, hg, h⟩ := Option.bind_eq_some.mp h
    simp only [Option.some.injEq, Prod.mk.injEq] at h
    rw [← h.1] at ha
    rcases List.mem_cons.mp ha with hw | hw
    · rw [hw]; exact randomBigIntInRange_bounds 2 (n - 2) fuel s w s1 (by omega) hr
    · exact ih fuel s1 ws2 s2 hg a hw

lemma deterministic_witness_bounds (n : Nat) (hn : 5 ≤ n) (tws : List Nat)
    (hdet : getDeterministicWitnesses n = some tws) :
    ∀ a ∈ tws, 2 ≤ a ∧ a ≤ n - 2 := by
  rw [getDeterministicWitnesses] at hdet
  split_ifs at hdet with h1 h2 h3 h4 h5 h6 h7 h8 h9 <;>
    (injection hdet with hdet; subst hdet; intro a ha; fin_cases ha <;> omega)

lemma millerRabin_above_table_k_nonpos (n k : Int) (fuel : Nat) (s : ByteStream)
    (hodd : n % 2 = 1) (hbig : 341550071728321 ≤ n) (hk : k ≤ 0) :
    millerRabin n k fuel s = some true := by
  rw [millerRabin, if_neg (by omega), if_neg (by omega), if_neg (by omega)]
  obtain ⟨s1, d1, heq, _, _, _⟩ := factorOut_correct (n.toNat - 1) 0 (by omega)
  rw [heq]
  simp only [Option.some_bind]
  have hdet : getDeterministicWitnesses n.toNat = none := by
    rw [getDeterministicWitnesses]
    split_ifs <;> first | omega | rfl
  have hk0 : k.toNat = 0 := by omega
  have hsel : selectWitnesses n.toNat k fuel s = some ([], s) := by
    rw [selectWitnesses, hdet]
    show generateRandomWitnesses n.toNat k fuel s = some ([], s)
    rw [generateRandomWitnesses, hk0]
    rfl
  rw [hsel]
  simp only [Option.map_some', List.all_nil]

/-! ### Claim theorems -/

/-- C2: `millerRabin` returns `false` for every `n < 2`, `true` for `n = 2`
and for `n = 3`, and `false` for every even `n > 2`.  These verdicts hold
for every accuracy parameter `k`, every fuel bound and every entropy
stream (in particular the empty one), showing they are reached before any
decomposition or witness testing occurs. -/
theorem millerRabin_edge_cases (n k : Int) (fuel : Nat) (s : ByteStream) :
    (n < 2 → millerRabin n k fuel s = some false) ∧
    ((n = 2 ∨ n = 3) → millerRabin n k fuel s = some true) ∧
    (2 < n → n % 2 = 0 → millerRabin n k fuel s = some false) := by
  refine ⟨fun h => ?_, fun h => ?_, fun h1 h2 => ?_⟩
  · rw [millerRabin, if_pos h]
  · rcases h with h | h <;> rw [millerRabin, if_neg (by omega), if_pos (by omega)]
  · rw [millerRabin, if_neg (by omega), if_neg (by omega), if_pos h2]

/-- Witness for C2 at `n = -7`, `n = 2` and `n = 4`. -/
theorem millerRabin_edge_cases_witness :
    millerRabin (-7) 20 0 [] = some false ∧ millerRabin 2 20 0 [] = some true ∧
    millerRabin 4 20 0 [] = some false :=
  ⟨(millerRabin_edge_cases (-7) 20 0 []).1 (by decide),
   (millerRabin_edge_cases 2 20 0 []).2.1 (Or.inl rfl),
   (millerRabin_edge_cases 4 20 0 []).2.2 (by decide) (by decide)⟩

/-- C3: `checkWitness(a, d, n, s)` computes `x = a^d mod n`, returns `true`
when `x = 1` or `x = n-1`, otherwise squares `x` modulo `n` up to `s-1`
times, returning `true` exactly when some squaring step reaches `n-1`
(after `j+1` squarings the value is `x^(2^(j+1)) mod n`), and returns
`false` when the loop completes without reaching `n-1`. -/
theorem checkWitness_matches_spec (a d n s : Nat) :
    checkWitness a d n s = true ↔
      a ^ d % n = 1 ∨ a ^ d % n = n - 1 ∨
        ∃ j, j < s - 1 ∧ (a ^ d % n) ^ 2 ^ (j + 1) % n = n - 1 := by
  simp only [checkWitness, modPow]
  split_ifs with h
  · simp only [true_iff]
    tauto
  · rw [squareLoop_iff]
    push_neg at h
    constructor
    · rintro ⟨j, hj, hx⟩
      exact Or.inr (Or.inr ⟨j, hj, hx⟩)
    · rintro (h1 | h1 | h1)
      · exact absurd h1 h.1
      · exact absurd h1 h.2
      · exact h1

/-- C4: the deterministic witness selector agrees everywhere with a lookup
in the published table (`specTable`, transcribed from the spec) that
returns the witness set of the first row whose threshold exceeds `n`, and
returns `none` when `n` is at or above the last threshold. -/
theorem getDeterministicWitnesses_eq_specLookup (n : Nat) :
    getDeterministicWitnesses n = specLookup n := by
  rw [getDeterministicWitnesses, specLookup, specTable]
  by_cases h1 : n < 2047
  · rw [if_pos h1, List.find?_cons_of_pos _ (by simpa using h1)]; rfl
  rw [if_neg h1, List.find?_cons_of_neg _ (by simpa using h1)]
  by_cases h2 : n < 1373653
  · rw [if_pos h2, List.find?_cons_of_pos _ (by simpa using h2)]; rfl
  rw [if_neg h2, List.find?_cons_of_neg _ (by simpa using h2)]
  by_cases h3 : n < 9080191
  · rw [if_pos h3, List.find?_cons_of_pos _ (by simpa using h3)]; rfl
  rw [if_neg h3, List.find?_cons_of_neg _ (by simpa using h3)]
  by_cases h4 : n < 25326001
  · rw [if_pos h4, List.find?_cons_of_pos _ (by simpa using h4)]; rfl
  rw [if_neg h4, List.find?_cons_of_neg _ (by simpa using h4)]
  by_cases h5 : n < 3215031751
  · rw [if_pos h5, List.find?_cons_of_pos _ (by simpa using h5)]; rfl
  rw [if_neg h5, List.find?_cons_of_neg _ (by simpa using h5)]
  by_cases h6 : n < 4759123141
  · rw [if_pos h6, List.find?_cons_of_pos _ (by simpa using h6)]; rfl
  rw [if_neg h6, List.find?_cons_of_neg _ (by simpa using h6)]
  by_cases h7 : n < 1122004669633
  · rw [if_pos h7, List.find?_cons_of_pos _ (by simpa using h7)]; rfl
  rw [if_neg h7, List.find?_cons_of_neg _ (by simpa using h7)]
  by_cases h8 : n < 3474749660383
  · rw [if_pos h8, List.find?_cons_of_pos _ (by simpa using h8)]; rfl
  rw [if_neg h8, List.find?_cons_of_neg _ (by simpa using h8)]
  by_cases h9 : n < 341550071728321
  · rw [if_pos h9, List.find?_cons_of_pos _ (by simpa using h9)]; rfl
  rw [if_neg h9, List.find?_cons_of_neg _ (by simpa using h9)]
  rfl

/-- C5: for every odd `n ≥ 5`, the repeated-halving loop of `millerRabin`
terminates and yields `(s, d)` with `2^s * d = n - 1` exactly, `d` odd,
and `s ≥ 1`. -/
theorem decomposition_invariant (n : Nat) (hodd : n % 2 = 1) (hn : 5 ≤ n) :
    ∃ s d, factorOut (n - 1) 0 = some (s, d) ∧
      2 ^ s * d = n - 1 ∧ d % 2 = 1 ∧ 1 ≤ s := by
  obtain ⟨s, d, heq, hval, hdodd, _⟩ := factorOut_correct (n - 1) 0 (by omega)
  rw [Nat.sub_zero] at hval
  refine ⟨s, d, heq, hval, hdodd, ?_⟩
  by_contra hs
  have hs0 : s = 0 := by omega
  rw [hs0, pow_zero, one_mul] at hval
  omega

/-- Witness for C5 at `n = 5`. -/
theorem decomposition_invariant_witness :
    (5 % 2 = 1 ∧ 5 ≤ 5) ∧
      ∃ s d, factorOut (5 - 1) 0 = some (s, d) ∧
        2 ^ s * d = 5 - 1 ∧ d % 2 = 1 ∧ 1 ≤ s :=
  ⟨⟨rfl, le_refl 5⟩, decomposition_invariant 5 rfl (le_refl 5)⟩

/-- C6: whenever `randomBigIntInRange(min, max)` with `min ≤ max` returns,
the returned value lies in the closed interval `[min, max]`; in
particular a call with `min = max` can only return `min`. -/
theorem randomInRange_within_bounds (min max fuel : Nat) (s : ByteStream) (r : Nat)
    (s' : ByteStream) (hmm : min ≤ max)
    (h : randomBigIntInRange min max fuel s = some (r, s')) :
    min ≤ r ∧ r ≤ max ∧ (min = max → r = min) := by
  obtain ⟨h1, h2⟩ := randomBigIntInRange_bounds min max fuel s r s' hmm h
  exact ⟨h1, h2, fun he => by omega⟩

/-- Witness for C6: on the entropy stream `[0]`, `randomBigIntInRange 3 3`
returns, and the returned value is `3`. -/
theorem randomInRange_within_bounds_witness :
    (3 ≤ 3 ∧ randomBigIntInRange 3 3 1 [0] = some (3, [])) ∧
      (3 ≤ 3 ∧ 3 ≤ 3 ∧ (3 = 3 → 3 = 3)) :=
  ⟨⟨le_refl 3, by decide⟩,
   randomInRange_within_bounds 3 3 1 [0] 3 [] (le_refl 3) (by decide)⟩

/-- C7 (code behaviour at the claimed error condition): for
`n = 341550071728323` (odd, above every deterministic threshold) and
`k = 0 < 1`, `millerRabin` raises no invalid-argument error: it returns
the normal verdict `true` without testing a single witness. -/
theorem invalid_k_returns_true_without_error :
    millerRabin 341550071728323 0 7 [1, 2, 3] = some true :=
  millerRabin_above_table_k_nonpos 341550071728323 0 7 [1, 2, 3]
    (by decide) (by decide) (by decide)

/-- C8: with `range = max - min + 1` and `bitsNeeded = bitLen range`, for
every `min ≤ max` the accepted region `[0, range)` covers at least half
of the masked sample space `[0, 2^bitsNeeded)`. -/
theorem rejection_accepts_at_least_half (min max : Nat) (h : min ≤ max) :
    2 ^ bitLen (max - min + 1) ≤ 2 * (max - min + 1) := by
  rw [bitLen_eq_log2, pow_succ]
  have h1 : 2 ^ Nat.log2 (max - min + 1) ≤ max - min + 1 :=
    Nat.log2_self_le (by omega)
  omega

/-- Witness for C8 at `min = 0`, `max = 2`. -/
theorem rejection_accepts_at_least_half_witness :
    0 ≤ 2 ∧ 2 ^ bitLen (2 - 0 + 1) ≤ 2 * (2 - 0 + 1) :=
  ⟨Nat.zero_le 2, rejection_accepts_at_least_half 0 2 (Nat.zero_le 2)⟩

/-- C9: for every odd `n ≥ 5` and `k ≥ 1`, every witness in the sequence
the test iterates over — deterministic table row or freshly sampled —
lies in `[2, n-2]`. -/
theorem witness_sequence_in_range (n : Nat) (k : Int) (fuel : Nat) (s : ByteStream)
    (ws : List Nat) (s' : ByteStream) (hodd : n % 2 = 1) (hn : 5 ≤ n) (hk : 1 ≤ k)
    (h : selectWitnesses n k fuel s = some (ws, s')) :
    ∀ a ∈ ws, 2 ≤ a ∧ a ≤ n - 2 := by
  cases hdet : getDeterministicWitnesses n with
  | none =>
    rw [selectWitnesses, hdet] at h
    have h' : generateRandomWitnesses n k fuel s = some (ws, s') := h
    exact genWitnesses_bounds n (by omega) k.toNat fuel s ws s' h'
  | some tws =>
    rw [selectWitnesses, hdet] at h
    have h' : some ((tws, s) : List Nat × ByteStream) = some (ws, s') := h
    simp only [Option.some.injEq, Prod.mk.injEq] at h'
    obtain ⟨rfl, rfl⟩ := h'
    exact deterministic_witness_bounds n hn tws hdet

/-- Witness for C9 at `n = 5`, `k = 1` (deterministic row `[2]`). -/
theorem witness_sequence_in_range_witness :
    ((5 : Nat) % 2 = 1 ∧ 5 ≤ 5 ∧ (1 : Int) ≤ 1 ∧
      selectWitnesses 5 1 0 [] = some ([2], [])) ∧
      ∀ a ∈ ([2] : List Nat), 2 ≤ a ∧ a ≤ 5 - 2 :=
  ⟨⟨rfl, le_refl 5, le_refl 1, rfl⟩,
   witness_sequence_in_range 5 1 0 [] [2] [] rfl (le_refl 5) (le_refl 1) rfl⟩

/-- C10: for every odd `n` at or above the last deterministic threshold
and every `k ≤ 0`, `millerRabin(n, k)` raises no error and returns
`true`: the generated random-witness list is empty (the generation loop
runs zero times and consumes no entropy) and the per-witness loop is
vacuously passed. -/
theorem vacuous_true_for_nonpositive_k (n k : Int) (fuel : Nat) (s : ByteStream)
    (hodd : n % 2 = 1) (hbig : 341550071728321 ≤ n) (hk : k ≤ 0) :
    millerRabin n k fuel s = some true :=
  millerRabin_above_table_k_nonpos n k fuel s hodd hbig hk

/-- Witness for C10 at `n = 341550071728321`, `k = -2`. -/
theorem vacuous_true_for_nonpositive_k_witness :
    ((341550071728321 : Int) % 2 = 1 ∧
      (341550071728321 : Int) ≤ 341550071728321 ∧ (-2 : Int) ≤ 0) ∧
      millerRabin 341550071728321 (-2) 5 [9] = some true :=
  ⟨⟨by decide, le_refl _, by decide⟩,
   vacuous_true_for_nonpositive_k 341550071728321 (-2) 5 [9]
     (by decide) (le_refl _) (by decide)⟩

end MillerRabinJS
